import Mathlib

/-!
Verification development for the kb-portal document index
(`pdf_viewer_app.py`): a shallow embedding of the `PDFDocumentManager`
scanner/classifier/index together with the file-serving endpoints, and
theorems checking the specification's claims against it.

Modelling conventions:
* A filesystem is a finite list of files (path components relative to the
  base directory, byte size, and the pre-formatted mtime string that the
  code derives from `stat().st_mtime`) plus the list of directories.
* Python strings are Lean `String`s; `str.lower()` is modelled as ASCII
  case folding (all data relevant to the claims is ASCII).
* `sorted(...)` is Python's stable ascending sort; it is embedded as
  `List.insertionSort` with the corresponding (total, transitive)
  "less-or-equal" relation, which is stable in exactly the same way.
  Python string comparison is lexicographic by code point (`lexLt`).
* Python float formatting `f"{n / d:.1f}"` with `d` a power of two is
  exact for `n < 2 ^ 53` (division by a power of two is exact in binary64
  and CPython's formatting rounds the exact value half-to-even), so it is
  embedded as exact rational rounding over `Nat`.
-/

/-- Python whitespace characters recognised by `str.strip` / `str.split`
(ASCII subset). -/
def isPyWS (c : Char) : Bool :=
  c = ' ' ∨ c = '\t' ∨ c = '\n' ∨ c = '\r' ∨ c = '\x0b' ∨ c = '\x0c'

/-- ASCII lower-casing of a string, modelling Python `str.lower()`. -/
def pyLower (s : String) : String :=
  String.mk (s.toList.map Char.toLower)

/-- Python `str.strip()`: drop leading and trailing whitespace. -/
def pyStrip (s : String) : String :=
  String.mk (((s.toList.dropWhile isPyWS).reverse.dropWhile isPyWS).reverse)

/-- Split a character list at separator characters, dropping empty pieces
(the behaviour of Python `str.split()` with no argument, and of
`pathlib` path-component splitting). -/
def splitDropAux (p : Char → Bool) : List Char → List Char → List (List Char)
  | [], acc => if acc.isEmpty then [] else [acc.reverse]
  | c :: cs, acc =>
    if p c then
      if acc.isEmpty then splitDropAux p cs []
      else acc.reverse :: splitDropAux p cs []
    else splitDropAux p cs (c :: acc)

/-- Python `str.split()` with no argument: split on whitespace runs. -/
def pySplit (s : String) : List String :=
  (splitDropAux isPyWS s.toList []).map String.mk

/-- Components of a POSIX path string as produced by `pathlib`
(`PurePosixPath.parts` on a relative path): split on `/`, dropping empty
segments and `.` segments. -/
def pyParts (s : String) : List String :=
  ((splitDropAux (fun c => c = '/') s.toList []).map String.mk).filter
    (fun c => ¬ c = ".")

/-- Join path components with `/`, modelling `str(PurePosixPath(...))` and
the `'/'.join(...)` calls in the code. -/
def joinSlash : List String → String
  | [] => ""
  | [s] => s
  | s :: t :: rest => s ++ "/" ++ joinSlash (t :: rest)

/-- Test whether a string ends with the given suffix string (the semantics
of Python `str.endswith` and of the case-sensitive glob patterns
`*{ext}` used by `rglob`/`glob`). -/
def strEndsWith (s suf : String) : Bool :=
  suf.toList.isSuffixOf s.toList

/-- Index of the last occurrence of a character in a list, if any. -/
def rfindIdx (x : Char) : List Char → Option Nat
  | [] => none
  | c :: cs =>
    match rfindIdx x cs with
    | some i => some (i + 1)
    | none => if c = x then some 0 else none

/-- Python `pathlib.PurePath.suffix` of a file name: the part from the
last dot on, unless that dot is the first or last character. -/
def pySuffix (name : String) : String :=
  let cs := name.toList
  match rfindIdx '.' cs with
  | some i => if 0 < i ∧ i < cs.length - 1 then String.mk (cs.drop i) else ""
  | none => ""

/-- Python `pathlib.PurePath.stem` of a file name: the name with
`pySuffix` removed. -/
def pyStem (name : String) : String :=
  let cs := name.toList
  match rfindIdx '.' cs with
  | some i => if 0 < i ∧ i < cs.length - 1 then String.mk (cs.take i) else name
  | none => name

/-- Round `num / den` to the nearest integer, ties to even (the rounding
CPython applies when formatting an exactly representable value with
one decimal digit). -/
def roundHalfEven (num den : Nat) : Nat :=
  let q := num / den
  let r := num % den
  if 2 * r < den then q
  else if den < 2 * r then q + 1
  else if q % 2 = 0 then q else q + 1

/-- Render `num / den` with exactly one decimal digit, modelling
`f"{num / den:.1f}"` for `den` a power of two and `num < 2 ^ 53`. -/
def oneDecimal (num den : Nat) : String :=
  let t := roundHalfEven (num * 10) den
  toString (t / 10) ++ "." ++ toString (t % 10)

/-- Embedding of `PDFDocumentManager.format_size`. -/
def format_size (size_bytes : Nat) : String :=
  if size_bytes < 1024 then toString size_bytes ++ " B"
  else if size_bytes < 1024 * 1024 then oneDecimal size_bytes 1024 ++ " KB"
  else if size_bytes < 1024 * 1024 * 1024 then
    oneDecimal size_bytes (1024 * 1024) ++ " MB"
  else oneDecimal size_bytes (1024 * 1024 * 1024) ++ " GB"

/-- A file on disk: its path components relative to the base directory,
its size in bytes, and the formatted modification time the code derives
from `stat().st_mtime` (carried as an opaque input string). -/
structure FSFile where
  parts : List String
  size : Nat
  mtime : String
deriving Repr, DecidableEq

/-- A directory tree rooted at the base path handed to
`PDFDocumentManager`: the base path components, the regular files under
it, and the directories under it (paths relative to the base). -/
structure FileTree where
  base : List String
  files : List FSFile
  dirs : List (List String)
deriving Repr

/-- Base name of a file (the last path component). -/
def fsName (f : FSFile) : String := f.parts.getLastD ""

/-- One indexed document: the `doc_info` dictionary built by
`add_document`. -/
structure Document where
  name : String
  path : String
  relative_path : String
  relative_in_release : String
  size : Nat
  size_human : String
  release : String
  type : String
  category : String
  modified : String
  absolute_path : String
deriving Repr, DecidableEq

/-- One root-level archive record: the dictionary stored in
`release_zips` by `scan_release_zips`. -/
structure ZipInfo where
  name : String
  path : String
  size : Nat
  size_human : String
  type : String
  is_zip : Bool
deriving Repr, DecidableEq

/-- State of a `PDFDocumentManager`.  The Python `dict`s (which preserve
insertion order and have unique keys) are embedded as association
lists. -/
structure Manager where
  base_path : List String
  product_manual_releases : List (String × List Document)
  knowledge_base_releases : List (String × List Document)
  release_zips : List (String × ZipInfo)
  all_documents : List Document
deriving Repr

/-- Lookup in an association list (Python `d[k]` / `k in d`). -/
def assocFind (l : List (String × α)) (k : String) : Option α :=
  (l.find? (fun p => decide (p.1 = k))).map (fun p => p.2)

/-- Documents stored under a key, empty when the key is absent. -/
def docsOf (l : List (String × List Document)) (k : String) : List Document :=
  (assocFind l k).getD []

/-- Append a document to the list at a key, creating the key at the end
when absent: `if k not in d: d[k] = []` followed by `d[k].append(v)`. -/
def assocAppend (l : List (String × List Document)) (k : String)
    (d : Document) : List (String × List Document) :=
  if (l.find? (fun p => decide (p.1 = k))).isSome then
    l.map (fun p => if p.1 = k then (p.1, p.2 ++ [d]) else p)
  else l ++ [(k, [d])]

/-- Overwrite-or-append for `release_zips` (Python `d[k] = v`). -/
def assocInsert (l : List (String × ZipInfo)) (k : String) (v : ZipInfo) :
    List (String × ZipInfo) :=
  if (l.find? (fun p => decide (p.1 = k))).isSome then
    l.map (fun p => if p.1 = k then (k, v) else p)
  else l ++ [(k, v)]

/-- Extension scan order of `scan_documents` (also the supported set). -/
def supportedExtOrder : List String :=
  [".pdf", ".mhtml", ".mht", ".zip", ".rar", ".7z", ".tar", ".gz"]

/-- Archive extensions used by `scan_release_zips` and
`get_file_type`. -/
def archiveExtensions : List String := [".zip", ".rar", ".7z", ".tar", ".gz"]

/-- Embedding of `PDFDocumentManager.get_file_type`. -/
def get_file_type (ext : String) : String :=
  let e := pyLower ext
  if e = ".pdf" then "pdf"
  else if e = ".mhtml" ∨ e = ".mht" then "mhtml"
  else if e = ".zip" ∨ e = ".rar" ∨ e = ".7z" ∨ e = ".tar" ∨ e = ".gz" then
    "archive"
  else "unknown"

/-- The condition `top_level_dir.lower() == 'productmanual'` of
`add_document`, applied to a component list. -/
def is_product_manual_of (parts : List String) : Prop :=
  pyLower (parts.headD "") = "productmanual"

instance : DecidablePred is_product_manual_of := fun parts => by
  unfold is_product_manual_of; exact inferInstance

/-- Embedding of `PDFDocumentManager.add_document`: classify one scanned
file by its path shape and append the resulting document to the matching
category/release bucket and to `all_documents`.  `file_path.suffix` and
`file_path.stem` act on the base name, and `str(file_path)` /
`str(file_path.absolute())` are the slash-joins of the absolute
components. -/
def add_document (m : Manager) (f : FSFile) : Manager :=
  let parts := f.parts
  if parts.length < 2 then m
  else
    let file_ext := pyLower (pySuffix (fsName f))
    let file_type := get_file_type file_ext
    if is_product_manual_of parts ∧
        ¬ (parts.length = 2 ∧ file_type = "archive") ∧ parts.length < 3 then m
    else
      let release_name :=
        if is_product_manual_of parts then
          if parts.length = 2 ∧ file_type = "archive" then pyStem (fsName f)
          else parts.getD 1 ""
        else parts.headD ""
      let relative_in_release :=
        if is_product_manual_of parts ∧ 3 ≤ parts.length then
          joinSlash (parts.drop 2)
        else if is_product_manual_of parts ∧ parts.length = 2 then
          parts.getD 1 ""
        else joinSlash (parts.drop 1)
      let doc : Document :=
        { name := fsName f
          path := joinSlash (m.base_path ++ parts)
          relative_path := joinSlash parts
          relative_in_release := relative_in_release
          size := f.size
          size_human := format_size f.size
          release := release_name
          type := file_type
          category :=
            if is_product_manual_of parts then "product_manual"
            else "knowledge_base"
          modified := f.mtime
          absolute_path := joinSlash (m.base_path ++ parts) }
      if is_product_manual_of parts then
        { m with
          product_manual_releases :=
            assocAppend m.product_manual_releases release_name doc
          all_documents := m.all_documents ++ [doc] }
      else
        { m with
          knowledge_base_releases :=
            assocAppend m.knowledge_base_releases release_name doc
          all_documents := m.all_documents ++ [doc] }

/-- The file enumeration of `scan_documents`: for each supported
extension in order, the files whose name matches the case-sensitive glob
pattern `*{ext}` (in tree enumeration order). -/
def allFiles (fs : FileTree) : List FSFile :=
  supportedExtOrder.flatMap
    (fun ext => fs.files.filter (fun f => strEndsWith (fsName f) ext))

/-- The `release_zips` entry built by `scan_release_zips`. -/
def mkZip (base : List String) (f : FSFile) : ZipInfo :=
  { name := fsName f
    path := joinSlash (base ++ f.parts)
    size := f.size
    size_human := format_size f.size
    type := "archive"
    is_zip := true }

/-- Root-level archive candidates enumerated by `scan_release_zips`:
for each archive extension, the files directly in the base directory
matching the glob `*{ext}`. -/
def rootArchiveFiles (fs : FileTree) : List FSFile :=
  archiveExtensions.flatMap
    (fun ext => fs.files.filter
      (fun f => f.parts.length = 1 ∧ strEndsWith (fsName f) ext))

/-- Loop body of `scan_release_zips`: register the archive under its stem
unless a same-named sibling directory exists. -/
def zipStep (fs : FileTree) (m : Manager) (af : FSFile) : Manager :=
  let archive_name := pyStem (fsName af)
  if [archive_name] ∈ fs.dirs then m
  else { m with
         release_zips := assocInsert m.release_zips archive_name
           (mkZip fs.base af) }

/-- Embedding of `PDFDocumentManager.scan_release_zips`: for each archive
extension, every file directly in the base directory matching `*{ext}`
whose stem has no same-named sibling directory is recorded in
`release_zips` keyed by its stem. -/
def scan_release_zips (fs : FileTree) (m : Manager) : Manager :=
  (rootArchiveFiles fs).foldl (zipStep fs) m

/-- Embedding of `PDFDocumentManager.scan_documents` (called by
`__init__`): add every enumerated file, then scan the root-level
archives. -/
def scan_documents (fs : FileTree) : Manager :=
  scan_release_zips fs
    ((allFiles fs).foldl add_document
      { base_path := fs.base
        product_manual_releases := []
        knowledge_base_releases := []
        release_zips := []
        all_documents := [] })

/-- Constructing a `PDFDocumentManager` over a directory tree. -/
def PDFDocumentManager (fs : FileTree) : Manager := scan_documents fs

/-- Strict lexicographic comparison of character lists by code point:
the semantics of Python string `<`. -/
def lexLt : List Char → List Char → Bool
  | [], [] => false
  | [], _ :: _ => true
  | _ :: _, [] => false
  | a :: as, b :: bs =>
    if a < b then true else if b < a then false else lexLt as bs

/-- Python string `<` (strict lexicographic by code point). -/
def strLt (a b : String) : Prop := lexLt a.toList b.toList = true

/-- Python string `<=`, the complement of the reverse strict order. -/
def strLe (a b : String) : Prop := lexLt b.toList a.toList = false

instance : DecidableRel strLt := fun a b => by
  unfold strLt; exact inferInstance

instance : DecidableRel strLe := fun a b => by
  unfold strLe; exact inferInstance

/-- Sort key of `get_release_documents`: ascending
`relative_in_release`. -/
def relLe (a b : Document) : Prop :=
  strLe a.relative_in_release b.relative_in_release

instance : DecidableRel relLe := fun a b => by
  unfold relLe; exact inferInstance

/-- Sort key of `search_documents`: ascending lexicographic
`(release, relative_in_release)` pair. -/
def docKeyLe (a b : Document) : Prop :=
  strLt a.release b.release ∨
    (a.release = b.release ∧ strLe a.relative_in_release b.relative_in_release)

instance : DecidableRel docKeyLe := fun a b => by
  unfold docKeyLe; exact inferInstance

/-- Ascending sort on strings, embedding Python `sorted` on a list of
release names. -/
def pySortStr (l : List String) : List String :=
  List.insertionSort strLe l

/-- Embedding of `PDFDocumentManager.get_releases`. -/
def get_releases (m : Manager) (category : String) : List String :=
  if category = "product_manual" then
    pySortStr (m.product_manual_releases.map (fun p => p.1))
  else if category = "knowledge_base" then
    pySortStr (m.knowledge_base_releases.map (fun p => p.1))
  else
    pySortStr (m.product_manual_releases.map (fun p => p.1) ++
      m.knowledge_base_releases.map (fun p => p.1))

/-- Embedding of `PDFDocumentManager.get_release_documents`. -/
def get_release_documents (m : Manager) (release : String)
    (category : String) : List Document :=
  if category = "product_manual" then
    match assocFind m.product_manual_releases release with
    | some docs => List.insertionSort relLe docs
    | none => []
  else if category = "knowledge_base" then
    match assocFind m.knowledge_base_releases release with
    | some docs => List.insertionSort relLe docs
    | none => []
  else []

/-- The composite search text of `search_documents`:
`' '.join([release.lower(), name.lower(), relative_in_release.lower()])`. -/
def searchText (d : Document) : String :=
  pyLower d.release ++ " " ++ pyLower d.name ++ " " ++
    pyLower d.relative_in_release

/-- Whether `t` occurs as a contiguous sublist of `h` (the semantics of
Python substring membership `t in h`). -/
def containsSub (h t : List Char) : Bool :=
  match h with
  | [] => t.isEmpty
  | _ :: rest => t.isPrefixOf h || containsSub rest t

/-- Membership of one query term in the search text (Python
`term in search_text`). -/
def termMatches (d : Document) (t : String) : Bool :=
  containsSub (searchText d).toList t.toList

/-- Embedding of `PDFDocumentManager.search_documents`. -/
def search_documents (m : Manager) (query : String) : List Document :=
  if query = "" ∨ (pyStrip query).length < 2 then []
  else
    let query_terms := pySplit (pyLower query)
    let results :=
      m.all_documents.filter (fun d => query_terms.all (termMatches d))
    List.insertionSort docKeyLe results

/-- Per-type accumulator of `get_stats`: type name, count, summed
size (in document order, keys in first-appearance order). -/
def typeStatsAux (docs : List Document) : List (String × Nat × Nat) :=
  docs.foldl
    (fun acc d =>
      if (acc.find? (fun p => decide (p.1 = d.type))).isSome then
        acc.map (fun p =>
          if p.1 = d.type then (p.1, p.2.1 + 1, p.2.2 + d.size) else p)
      else acc ++ [(d.type, 1, d.size)])
    []

/-- The dictionary returned by `get_stats`. -/
structure Stats where
  product_manual_count : Nat
  product_manual_doc_count : Nat
  knowledge_base_count : Nat
  knowledge_base_doc_count : Nat
  release_folders_count : Nat
  release_folders_doc_count : Nat
  release_folders_total_size : Nat
  release_folders_total_size_human : String
  release_zips_count : Nat
  release_zips_total_size : Nat
  release_zips_total_size_human : String
  type_stats : List (String × Nat × String)
  total_releases : Nat
  total_pdfs : Nat
  total_size : Nat
deriving Repr, DecidableEq

/-- Embedding of `PDFDocumentManager.get_stats` (`category=None` is
`Option.none`). -/
def get_stats (m : Manager) (category : Option String) : Stats :=
  let filtered_docs :=
    if category = some "product_manual" then
      m.all_documents.filter (fun d => decide (d.category = "product_manual"))
    else if category = some "knowledge_base" then
      m.all_documents.filter (fun d => decide (d.category = "knowledge_base"))
    else m.all_documents
  let release_count :=
    if category = some "product_manual" then m.product_manual_releases.length
    else if category = some "knowledge_base" then
      m.knowledge_base_releases.length
    else m.product_manual_releases.length + m.knowledge_base_releases.length
  let total_doc_size := (filtered_docs.map (fun d => d.size)).sum
  let product_manual_docs :=
    m.all_documents.filter (fun d => decide (d.category = "product_manual"))
  let knowledge_base_docs :=
    m.all_documents.filter (fun d => decide (d.category = "knowledge_base"))
  let filtered_zips :=
    if category = some "product_manual" then
      m.release_zips.filter (fun kv =>
        (m.product_manual_releases.find? (fun p => decide (p.1 = kv.1))).isSome)
    else if category = some "knowledge_base" then
      m.release_zips.filter (fun kv =>
        (m.knowledge_base_releases.find? (fun p => decide (p.1 = kv.1))).isSome)
    else m.release_zips
  let total_zip_size := (filtered_zips.map (fun kv => kv.2.size)).sum
  { product_manual_count := m.product_manual_releases.length
    product_manual_doc_count := product_manual_docs.length
    knowledge_base_count := m.knowledge_base_releases.length
    knowledge_base_doc_count := knowledge_base_docs.length
    release_folders_count := release_count
    release_folders_doc_count := filtered_docs.length
    release_folders_total_size := total_doc_size
    release_folders_total_size_human := format_size total_doc_size
    release_zips_count := filtered_zips.length
    release_zips_total_size := total_zip_size
    release_zips_total_size_human := format_size total_zip_size
    type_stats :=
      (typeStatsAux filtered_docs).map
        (fun p => (p.1, p.2.1, format_size p.2.2))
    total_releases := release_count
    total_pdfs :=
      (filtered_docs.filter (fun d => decide (d.type = "pdf"))).length
    total_size := total_doc_size }

/-- Result of one of the file-serving endpoints: `ok` models a
successful `send_file`, `notFound` the 404 response, `badRequest` the
400 wrong-extension response. -/
inductive ViewResult where
  | ok (absPath : List String) (mimetype : String)
  | notFound
  | badRequest
deriving Repr, DecidableEq

/-- Resolution of `..` components by the operating system when the code
calls `exists()` on a path (a `..` at the filesystem root stays at the
root). -/
def resolveDots (ps : List String) : List String :=
  ps.foldl (fun acc c => if c = ".." then acc.dropLast else acc ++ [c]) []

/-- Embedding of the `view_pdf` endpoint: `absFiles` is the set of
regular files existing on the machine (absolute, `..`-free component
lists), `base` the manager's base path, `req` the `<path:file_path>`
URL parameter.  The code joins `base / file_path`, tests existence, and
tests `str(full_path).lower().endswith('.pdf')`. -/
def view_pdf (absFiles : List (List String)) (base : List String)
    (req : String) : ViewResult :=
  let full := base ++ pyParts req
  if resolveDots full ∈ absFiles then
    if strEndsWith (pyLower (joinSlash full)) ".pdf" then
      ViewResult.ok (resolveDots full) "application/pdf"
    else ViewResult.badRequest
  else ViewResult.notFound

/-- Embedding of the `view_mhtml` endpoint (extension group
`.mhtml`/`.mht`, mimetype `multipart/related`). -/
def view_mhtml (absFiles : List (List String)) (base : List String)
    (req : String) : ViewResult :=
  let full := base ++ pyParts req
  if resolveDots full ∈ absFiles then
    if strEndsWith (pyLower (joinSlash full)) ".mhtml" ∨
        strEndsWith (pyLower (joinSlash full)) ".mht" then
      ViewResult.ok (resolveDots full) "multipart/related"
    else ViewResult.badRequest
  else ViewResult.notFound

/-- The document built by `add_document` for a 2-component
`ProductManual` archive (the virtual-release branch). -/
def pmArchiveDoc (base : List String) (f : FSFile) : Document :=
  { name := fsName f
    path := joinSlash (base ++ f.parts)
    relative_path := joinSlash f.parts
    relative_in_release := f.parts.getD 1 ""
    size := f.size
    size_human := format_size f.size
    release := pyStem (fsName f)
    type := get_file_type (pyLower (pySuffix (fsName f)))
    category := "product_manual"
    modified := f.mtime
    absolute_path := joinSlash (base ++ f.parts) }

/-- The document built by `add_document` for a `ProductManual` file with
at least three path components. -/
def pmDeepDoc (base : List String) (f : FSFile) : Document :=
  { name := fsName f
    path := joinSlash (base ++ f.parts)
    relative_path := joinSlash f.parts
    relative_in_release := joinSlash (f.parts.drop 2)
    size := f.size
    size_human := format_size f.size
    release := f.parts.getD 1 ""
    type := get_file_type (pyLower (pySuffix (fsName f)))
    category := "product_manual"
    modified := f.mtime
    absolute_path := joinSlash (base ++ f.parts) }

/-- The document built by `add_document` for a knowledge-base file
(first component not `ProductManual`, at least two components). -/
def kbDoc (base : List String) (f : FSFile) : Document :=
  { name := fsName f
    path := joinSlash (base ++ f.parts)
    relative_path := joinSlash f.parts
    relative_in_release := joinSlash (f.parts.drop 1)
    size := f.size
    size_human := format_size f.size
    release := f.parts.headD ""
    type := get_file_type (pyLower (pySuffix (fsName f)))
    category := "knowledge_base"
    modified := f.mtime
    absolute_path := joinSlash (base ++ f.parts) }

/-- Shared sample document for concrete witnesses. -/
def sampleDoc : Document :=
  { name := "Guide.pdf"
    path := "root/ProductManual/R1/Guide.pdf"
    relative_path := "ProductManual/R1/Guide.pdf"
    relative_in_release := "Guide.pdf"
    size := 10
    size_human := "10 B"
    release := "R1"
    type := "pdf"
    category := "product_manual"
    modified := "t"
    absolute_path := "root/ProductManual/R1/Guide.pdf" }

/-- Shared sample manager state for concrete witnesses. -/
def sampleManager : Manager :=
  { base_path := ["root"]
    product_manual_releases := [("R1", [sampleDoc])]
    knowledge_base_releases := [("KB1", [])]
    release_zips := []
    all_documents := [sampleDoc] }

/-- Directory tree in which `ProductManual/Bundle/` exists with an
indexed file inside and `ProductManual/Bundle.zip` coexists. -/
def bundleTree : FileTree :=
  { base := ["root"]
    files := [⟨["ProductManual", "Bundle", "doc.pdf"], 10, "t"⟩,
              ⟨["ProductManual", "Bundle.zip"], 20, "t"⟩]
    dirs := [["ProductManual"], ["ProductManual", "Bundle"]] }

/-- Directory tree with one indexed product-manual document and one
root-level archive sibling `Bundle.zip` with no `Bundle/` directory. -/
def soloZipTree : FileTree :=
  { base := ["root"]
    files := [⟨["ProductManual", "R1", "doc.pdf"], 10, "t"⟩,
              ⟨["Bundle.zip"], 20, "t"⟩]
    dirs := [["ProductManual"], ["ProductManual", "R1"]] }

/-- The contract of `get_release_documents` for one category: empty when
the release is not a key of the category's release map, and otherwise a
permutation of the stored documents sorted ascending by
`relative_in_release`. -/
def ListDocsSpec (m : Manager) (cat rel : String) : Prop :=
  (assocFind
      (if cat = "product_manual" then m.product_manual_releases
       else m.knowledge_base_releases) rel = none →
    get_release_documents m rel cat = []) ∧
  ∀ docs : List Document,
    assocFind
        (if cat = "product_manual" then m.product_manual_releases
         else m.knowledge_base_releases) rel = some docs →
      List.Perm (get_release_documents m rel cat) docs ∧
      List.Sorted relLe (get_release_documents m rel cat)

/-- The contract of `search_documents` for a query passing the length
gate: the result is a permutation of the documents for which every
lower-cased whitespace-split query term is a substring of the composite
search text, sorted ascending by the `(release, relative_in_release)`
pair, and membership is exactly the conjunctive substring match. -/
def SearchSpec (m : Manager) (q : String) : Prop :=
  List.Perm (search_documents m q)
    (m.all_documents.filter
      (fun d => (pySplit (pyLower q)).all (termMatches d))) ∧
  List.Sorted docKeyLe (search_documents m q) ∧
  ∀ d : Document,
    d ∈ search_documents m q ↔
      d ∈ m.all_documents ∧
        ∀ t ∈ pySplit (pyLower q), termMatches d t = true

/-- Classification contract for a `ProductManual` file with at least
three components: category `product_manual`, release the second
component, relative-in-release the slash-join from the third component
on, and the document is appended to `all_documents` and to its release
bucket. -/
def ClassifySpecPM (m : Manager) (f : FSFile) : Prop :=
  (add_document m f).all_documents =
      m.all_documents ++ [pmDeepDoc m.base_path f] ∧
    (pmDeepDoc m.base_path f).category = "product_manual" ∧
    (pmDeepDoc m.base_path f).release = f.parts.getD 1 "" ∧
    (pmDeepDoc m.base_path f).relative_in_release =
      joinSlash (f.parts.drop 2) ∧
    pmDeepDoc m.base_path f ∈
      docsOf (add_document m f).product_manual_releases (f.parts.getD 1 "")

/-- Classification contract for a knowledge-base file: category
`knowledge_base`, release the first component, relative-in-release the
slash-join from the second component on. -/
def ClassifySpecKB (m : Manager) (f : FSFile) : Prop :=
  (add_document m f).all_documents =
      m.all_documents ++ [kbDoc m.base_path f] ∧
    (kbDoc m.base_path f).category = "knowledge_base" ∧
    (kbDoc m.base_path f).release = f.parts.headD "" ∧
    (kbDoc m.base_path f).relative_in_release =
      joinSlash (f.parts.drop 1) ∧
    kbDoc m.base_path f ∈
      docsOf (add_document m f).knowledge_base_releases (f.parts.headD "")

theorem lexLt_asymm :
    ∀ {a b : List Char}, lexLt a b = true → lexLt b a = false := by
  intro a
  induction a with
  | nil => intro b h; cases b <;> simp [lexLt] at h ⊢
  | cons x xs ih =>
    intro b h
    cases b with
    | nil => simp [lexLt] at h
    | cons y ys =>
      by_cases hxy : x < y
      · simp [lexLt, hxy, lt_asymm hxy]
      · by_cases hyx : y < x
        · simp [lexLt, hxy, hyx] at h
        · simp [lexLt, hxy, hyx] at h ⊢
          exact ih h

theorem lexLt_trans :
    ∀ {a b c : List Char},
      lexLt a b = true → lexLt b c = true → lexLt a c = true := by
  intro a
  induction a with
  | nil =>
    intro b c hab hbc
    cases b <;> cases c <;> simp [lexLt] at hab hbc ⊢
  | cons x xs ih =>
    intro b c hab hbc
    cases b with
    | nil => simp [lexLt] at hab
    | cons y ys =>
      cases c with
      | nil => simp [lexLt] at hbc
      | cons z zs =>
        by_cases hxy : x < y
        · by_cases hyz : y < z
          · simp [lexLt, lt_trans hxy hyz]
          · by_cases hzy : z < y
            · simp [lexLt, hyz, hzy] at hbc
            · have hyz2 : y = z := le_antisymm (not_lt.1 hzy) (not_lt.1 hyz)
              subst hyz2
              simp [lexLt, hxy]
        · by_cases hyx : y < x
          · simp [lexLt, hxy, hyx] at hab
          · have hxy2 : x = y := le_antisymm (not_lt.1 hyx) (not_lt.1 hxy)
            subst hxy2
            simp [lexLt, hxy] at hab
            by_cases hyz : x < z
            · simp [lexLt, hyz]
            · by_cases hzy : z < x
              · simp [lexLt, hyz, hzy] at hbc
              · simp [lexLt, hyz, hzy] at hbc ⊢
                exact ih hab hbc

theorem lexLt_connex :
    ∀ {a b : List Char},
      lexLt a b = false → lexLt b a = false → a = b := by
  intro a
  induction a with
  | nil => intro b hab _; cases b <;> simp [lexLt] at hab ⊢
  | cons x xs ih =>
    intro b hab hba
    cases b with
    | nil => simp [lexLt] at hba
    | cons y ys =>
      by_cases hxy : x < y
      · simp [lexLt, hxy] at hab
      · by_cases hyx : y < x
        · simp [lexLt, hyx] at hba
        · have hxy2 : x = y := le_antisymm (not_lt.1 hyx) (not_lt.1 hxy)
          subst hxy2
          simp [lexLt, hxy] at hab hba
          exact congrArg (x :: ·) (ih hab hba)

theorem strLe_total (a b : String) : strLe a b ∨ strLe b a := by
  unfold strLe
  by_cases h : lexLt b.toList a.toList = true
  · exact Or.inr (lexLt_asymm h)
  · exact Or.inl (Bool.not_eq_true _ ▸ h)

theorem strLe_trans {a b c : String} (h1 : strLe a b) (h2 : strLe b c) :
    strLe a c := by
  unfold strLe at h1 h2 ⊢
  by_cases hca : lexLt c.toList a.toList = true
  · by_cases hab : lexLt a.toList b.toList = true
    · have := lexLt_trans hca hab
      rw [this] at h2; cases h2
    · have hab2 : a.toList = b.toList :=
        lexLt_connex (Bool.not_eq_true _ ▸ hab) h1
      rw [← hab2] at h2
      rw [h2] at hca; cases hca
  · exact Bool.not_eq_true _ ▸ hca

theorem strLt_or_eq_or_gt (a b : String) : strLt a b ∨ a = b ∨ strLt b a := by
  unfold strLt
  by_cases h1 : lexLt a.toList b.toList = true
  · exact Or.inl h1
  · by_cases h2 : lexLt b.toList a.toList = true
    · exact Or.inr (Or.inr h2)
    · refine Or.inr (Or.inl ?_)
      have := lexLt_connex (Bool.not_eq_true _ ▸ h1) (Bool.not_eq_true _ ▸ h2)
      cases a; cases b
      exact congrArg String.mk (by simpa [String.toList] using this)

theorem strLt_trans {a b c : String} (h1 : strLt a b) (h2 : strLt b c) :
    strLt a c :=
  lexLt_trans h1 h2

theorem relLe_total (a b : Document) : relLe a b ∨ relLe b a :=
  strLe_total a.relative_in_release b.relative_in_release

theorem relLe_trans {a b c : Document} (h1 : relLe a b) (h2 : relLe b c) :
    relLe a c :=
  strLe_trans h1 h2

theorem docKeyLe_total (a b : Document) : docKeyLe a b ∨ docKeyLe b a := by
  rcases strLt_or_eq_or_gt a.release b.release with h | h | h
  · exact Or.inl (Or.inl h)
  · rcases strLe_total a.relative_in_release b.relative_in_release with h2 | h2
    · exact Or.inl (Or.inr ⟨h, h2⟩)
    · exact Or.inr (Or.inr ⟨h.symm, h2⟩)
  · exact Or.inr (Or.inl h)

theorem docKeyLe_trans {a b c : Document} (hab : docKeyLe a b)
    (hbc : docKeyLe b c) : docKeyLe a c := by
  rcases hab with h1 | ⟨h1, h2⟩ <;> rcases hbc with h3 | ⟨h3, h4⟩
  · exact Or.inl (strLt_trans h1 h3)
  · exact Or.inl (h3 ▸ h1)
  · exact Or.inl (h1 ▸ h3)
  · exact Or.inr ⟨h1.trans h3, strLe_trans h2 h4⟩

/-- Rounding to the nearest multiple of `1 / 10`, in tenths: bounds for
denominator `1024`. -/
theorem roundHalfEven_bounds_kb (num : Nat) :
    2 * (roundHalfEven num 1024 * 1024) ≤ 2 * num + 1024 ∧
    2 * num ≤ 2 * (roundHalfEven num 1024 * 1024) + 1024 := by
  simp only [roundHalfEven]
  split
  · omega
  · split
    · omega
    · split <;> omega

/-- Rounding bounds for denominator `1024 * 1024`. -/
theorem roundHalfEven_bounds_mb (num : Nat) :
    2 * (roundHalfEven num (1024 * 1024) * (1024 * 1024)) ≤
      2 * num + 1024 * 1024 ∧
    2 * num ≤
      2 * (roundHalfEven num (1024 * 1024) * (1024 * 1024)) + 1024 * 1024 := by
  simp only [roundHalfEven]
  split
  · omega
  · split
    · omega
    · split <;> omega

/-- Rounding bounds for denominator `1024 * 1024 * 1024`. -/
theorem roundHalfEven_bounds_gb (num : Nat) :
    2 * (roundHalfEven num (1024 * 1024 * 1024) * (1024 * 1024 * 1024)) ≤
      2 * num + 1024 * 1024 * 1024 ∧
    2 * num ≤
      2 * (roundHalfEven num (1024 * 1024 * 1024) * (1024 * 1024 * 1024)) +
        1024 * 1024 * 1024 := by
  simp only [roundHalfEven]
  split
  · omega
  · split
    · omega
    · split <;> omega

/-- C7: `format_size` renders `n < 1024` as integer bytes with unit `B`,
and otherwise divides by `1024`, `1024 ^ 2`, or `1024 ^ 3` (with those
thresholds) and renders the quotient with exactly one decimal digit
(the digits shown are the quotient rounded to the nearest tenth) and
unit `KB`, `MB`, or `GB`; in particular `format_size 0 = "0 B"`,
`format_size 1023 = "1023 B"`, `format_size 1024 = "1.0 KB"`, and
`format_size 1048576 = "1.0 MB"`. -/
theorem c7_format_size :
    (∀ n : Nat, n < 1024 → format_size n = toString n ++ " B") ∧
    (∀ n : Nat, 1024 ≤ n → n < 1024 * 1024 →
      ∃ a b : Nat, b < 10 ∧
        format_size n = toString a ++ "." ++ toString b ++ " KB" ∧
        2 * ((a * 10 + b) * 1024) ≤ 2 * (n * 10) + 1024 ∧
        2 * (n * 10) ≤ 2 * ((a * 10 + b) * 1024) + 1024) ∧
    (∀ n : Nat, 1024 * 1024 ≤ n → n < 1024 * 1024 * 1024 →
      ∃ a b : Nat, b < 10 ∧
        format_size n = toString a ++ "." ++ toString b ++ " MB" ∧
        2 * ((a * 10 + b) * (1024 * 1024)) ≤ 2 * (n * 10) + 1024 * 1024 ∧
        2 * (n * 10) ≤ 2 * ((a * 10 + b) * (1024 * 1024)) + 1024 * 1024) ∧
    (∀ n : Nat, 1024 * 1024 * 1024 ≤ n →
      ∃ a b : Nat, b < 10 ∧
        format_size n = toString a ++ "." ++ toString b ++ " GB" ∧
        2 * ((a * 10 + b) * (1024 * 1024 * 1024)) ≤
          2 * (n * 10) + 1024 * 1024 * 1024 ∧
        2 * (n * 10) ≤
          2 * ((a * 10 + b) * (1024 * 1024 * 1024)) + 1024 * 1024 * 1024) ∧
    format_size 0 = "0 B" ∧ format_size 1023 = "1023 B" ∧
    format_size 1024 = "1.0 KB" ∧ format_size 1048576 = "1.0 MB" := by
  refine ⟨?_, ?_, ?_, ?_, by decide, by decide, by decide, by decide⟩
  · intro n h
    unfold format_size
    rw [if_pos h]
  · intro n h1 h2
    have e : format_size n = oneDecimal n 1024 ++ " KB" := by
      unfold format_size
      rw [if_neg (by omega), if_pos h2]
    refine ⟨roundHalfEven (n * 10) 1024 / 10, roundHalfEven (n * 10) 1024 % 10,
      by omega, ?_, ?_, ?_⟩
    · rw [e]; rfl
    · have hb := (roundHalfEven_bounds_kb (n * 10)).1
      omega
    · have hb := (roundHalfEven_bounds_kb (n * 10)).2
      omega
  · intro n h1 h2
    have e : format_size n = oneDecimal n (1024 * 1024) ++ " MB" := by
      unfold format_size
      rw [if_neg (by omega), if_neg (by omega), if_pos h2]
    refine ⟨roundHalfEven (n * 10) (1024 * 1024) / 10,
      roundHalfEven (n * 10) (1024 * 1024) % 10, by omega, ?_, ?_, ?_⟩
    · rw [e]; rfl
    · have hb := (roundHalfEven_bounds_mb (n * 10)).1
      omega
    · have hb := (roundHalfEven_bounds_mb (n * 10)).2
      omega
  · intro n h1
    have e : format_size n = oneDecimal n (1024 * 1024 * 1024) ++ " GB" := by
      unfold format_size
      rw [if_neg (by omega), if_neg (by omega), if_neg (by omega)]
    refine ⟨roundHalfEven (n * 10) (1024 * 1024 * 1024) / 10,
      roundHalfEven (n * 10) (1024 * 1024 * 1024) % 10, by omega, ?_, ?_, ?_⟩
    · rw [e]; rfl
    · have hb := (roundHalfEven_bounds_gb (n * 10)).1
      omega
    · have hb := (roundHalfEven_bounds_gb (n * 10)).2
      omega

/-- Witness for C7 at the concrete inputs `100` and `1536`. -/
theorem c7_format_size_witness :
    ((100 : Nat) < 1024 ∧ format_size 100 = toString (100 : Nat) ++ " B") ∧
    ((1024 : Nat) ≤ 1536 ∧ (1536 : Nat) < 1024 * 1024) ∧
    (∃ a b : Nat, b < 10 ∧
      format_size 1536 = toString a ++ "." ++ toString b ++ " KB" ∧
      2 * ((a * 10 + b) * 1024) ≤ 2 * (1536 * 10) + 1024 ∧
      2 * (1536 * 10) ≤ 2 * ((a * 10 + b) * 1024) + 1024) :=
  ⟨⟨by decide, c7_format_size.1 100 (by decide)⟩, ⟨by decide, by decide⟩,
    c7_format_size.2.1 1536 (by decide) (by decide)⟩

/-- C8: a query whose length after trimming is below 2 characters makes
`search_documents` return the empty list, for every index state. -/
theorem c8_search_min_length (m : Manager) (q : String)
    (h : (pyStrip q).length < 2) : search_documents m q = [] := by
  unfold search_documents
  rw [if_pos (Or.inr h)]

/-- Witness for C8 at `q = "a"` on the empty manager. -/
theorem c8_search_min_length_witness :
    (pyStrip "a").length < 2 ∧
    search_documents ⟨[], [], [], [], []⟩ "a" = [] :=
  ⟨by decide, c8_search_min_length ⟨[], [], [], [], []⟩ "a" (by decide)⟩

/-- C1 (code-bug evidence): the view endpoints perform no containment
check against the base root.  With base `srv/docs` and files
`/etc/secret.pdf` and `/etc/notes.mht` existing outside the root, the
requests `../../etc/secret.pdf` and `../../etc/notes.mht` resolve
outside the root (taking the first two components of the resolved path
does not give back the base prefix) yet both endpoints serve the file
instead of rejecting it. -/
theorem c1_view_traversal_served :
    view_pdf [["etc", "secret.pdf"]] ["srv", "docs"] "../../etc/secret.pdf" =
      ViewResult.ok ["etc", "secret.pdf"] "application/pdf" ∧
    view_mhtml [["etc", "notes.mht"]] ["srv", "docs"] "../../etc/notes.mht" =
      ViewResult.ok ["etc", "notes.mht"] "multipart/related" ∧
    (resolveDots (["srv", "docs"] ++ pyParts "../../etc/secret.pdf")).take 2 ≠
      ["srv", "docs"] ∧
    (resolveDots (["srv", "docs"] ++ pyParts "../../etc/notes.mht")).take 2 ≠
      ["srv", "docs"] := by decide

/-- C10: for any category string other than the two known ones,
`get_releases` returns a permutation of the concatenation of the
product-manual and knowledge-base key lists, in ascending order, and
every name occurs with the summed multiplicity (so a name present in
both categories appears twice). -/
theorem c10_get_releases_other (m : Manager) (cat : String)
    (h1 : ¬ cat = "product_manual") (h2 : ¬ cat = "knowledge_base") :
    List.Perm (get_releases m cat)
      (m.product_manual_releases.map (fun p => p.1) ++
        m.knowledge_base_releases.map (fun p => p.1)) ∧
    List.Sorted strLe (get_releases m cat) ∧
    ∀ s : String, (get_releases m cat).count s =
      (m.product_manual_releases.map (fun p => p.1)).count s +
        (m.knowledge_base_releases.map (fun p => p.1)).count s := by
  haveI : IsTotal String strLe := ⟨strLe_total⟩
  haveI : IsTrans String strLe := ⟨fun _ _ _ => strLe_trans⟩
  have e : get_releases m cat =
      pySortStr (m.product_manual_releases.map (fun p => p.1) ++
        m.knowledge_base_releases.map (fun p => p.1)) := by
    unfold get_releases
    rw [if_neg h1, if_neg h2]
  rw [e]
  unfold pySortStr
  refine ⟨List.perm_insertionSort _ _, List.sorted_insertionSort _ _, ?_⟩
  intro s
  rw [(List.perm_insertionSort _ _).count_eq, List.count_append]

/-- Witness for C10 at the category string `"all"`. -/
theorem c10_get_releases_other_witness :
    ¬ "all" = "product_manual" ∧ ¬ "all" = "knowledge_base" ∧
    (List.Perm (get_releases sampleManager "all")
      (sampleManager.product_manual_releases.map (fun p => p.1) ++
        sampleManager.knowledge_base_releases.map (fun p => p.1)) ∧
    List.Sorted strLe (get_releases sampleManager "all") ∧
    ∀ s : String, (get_releases sampleManager "all").count s =
      (sampleManager.product_manual_releases.map (fun p => p.1)).count s +
        (sampleManager.knowledge_base_releases.map (fun p => p.1)).count s) :=
  ⟨by decide, by decide,
    c10_get_releases_other sampleManager "all" (by decide) (by decide)⟩

/-- C9: for both categories, `get_release_documents` returns all
documents of the (category, release) pair sorted ascending by
`relative_in_release`, and the empty list — never an error — when the
release is not a key of that category's release map. -/
theorem c9_get_release_documents (m : Manager) (cat rel : String)
    (hcat : cat = "product_manual" ∨ cat = "knowledge_base") :
    ListDocsSpec m cat rel := by
  haveI : IsTotal Document relLe := ⟨relLe_total⟩
  haveI : IsTrans Document relLe := ⟨fun _ _ _ => relLe_trans⟩
  unfold ListDocsSpec
  by_cases hpm : cat = "product_manual"
  · simp only [if_pos hpm]
    have e : get_release_documents m rel cat =
        match assocFind m.product_manual_releases rel with
        | some docs => List.insertionSort relLe docs
        | none => [] := by
      unfold get_release_documents
      rw [if_pos hpm]
    constructor
    · intro hnone
      rw [e, hnone]
    · intro docs hsome
      rw [e, hsome]
      exact ⟨List.perm_insertionSort relLe docs,
        List.sorted_insertionSort relLe docs⟩
  · have hkb : cat = "knowledge_base" := hcat.resolve_left hpm
    simp only [if_neg hpm]
    have e : get_release_documents m rel cat =
        match assocFind m.knowledge_base_releases rel with
        | some docs => List.insertionSort relLe docs
        | none => [] := by
      unfold get_release_documents
      rw [if_neg hpm, if_pos hkb]
    constructor
    · intro hnone
      rw [e, hnone]
    · intro docs hsome
      rw [e, hsome]
      exact ⟨List.perm_insertionSort relLe docs,
        List.sorted_insertionSort relLe docs⟩

/-- Witness for C9 on the sample manager, both for a known and for an
unknown release name. -/
theorem c9_get_release_documents_witness :
    ("product_manual" = "product_manual" ∨
      "product_manual" = "knowledge_base") ∧
    ListDocsSpec sampleManager "product_manual" "R1" ∧
    ListDocsSpec sampleManager "product_manual" "missing" :=
  ⟨Or.inl rfl,
    c9_get_release_documents sampleManager "product_manual" "R1" (Or.inl rfl),
    c9_get_release_documents sampleManager "product_manual" "missing"
      (Or.inl rfl)⟩

/-- C4: for a query of trimmed length at least 2, `search_documents`
splits the query on whitespace into lower-cased terms and returns
exactly the documents whose composite lower-cased haystack
(release, name, relative-in-release joined by spaces) contains every
term as a substring, sorted ascending by
`(release, relative_in_release)`. -/
theorem c4_search_documents (m : Manager) (q : String)
    (h : 2 ≤ (pyStrip q).length) : SearchSpec m q := by
  haveI : IsTotal Document docKeyLe := ⟨docKeyLe_total⟩
  haveI : IsTrans Document docKeyLe := ⟨fun _ _ _ => docKeyLe_trans⟩
  have hq : ¬ (q = "" ∨ (pyStrip q).length < 2) := by
    rintro (rfl | hlt)
    · have e0 : pyStrip "" = "" := rfl
      rw [e0] at h
      simp at h
    · omega
  have e : search_documents m q =
      List.insertionSort docKeyLe
        (m.all_documents.filter
          (fun d => (pySplit (pyLower q)).all (termMatches d))) := by
    unfold search_documents
    rw [if_neg hq]
  unfold SearchSpec
  rw [e]
  refine ⟨List.perm_insertionSort _ _, List.sorted_insertionSort _ _, ?_⟩
  intro d
  rw [List.mem_insertionSort, List.mem_filter, List.all_eq_true]

/-- Witness for C4 at the query `"r1 pdf"` on the sample manager. -/
theorem c4_search_documents_witness :
    2 ≤ (pyStrip "r1 pdf").length ∧ SearchSpec sampleManager "r1 pdf" :=
  ⟨by decide, c4_search_documents sampleManager "r1 pdf" (by decide)⟩

/-- Commuting a key-preserving value update past `find?` on a key
predicate. -/
theorem find?_assocMap (l : List (String × List Document)) (k k2 : String)
    (d2 : Document) :
    (l.map (fun p => if p.1 = k2 then (p.1, p.2 ++ [d2]) else p)).find?
        (fun p => decide (p.1 = k)) =
      (l.find? (fun p => decide (p.1 = k))).map
        (fun p => if p.1 = k2 then (p.1, p.2 ++ [d2]) else p) := by
  rw [List.find?_map]
  have e : ((fun p : String × List Document => decide (p.1 = k)) ∘
      (fun p => if p.1 = k2 then (p.1, p.2 ++ [d2]) else p)) =
      fun p : String × List Document => decide (p.1 = k) := by
    funext p
    by_cases hp : p.1 = k2 <;> simp [Function.comp, hp]
  rw [e]

/-- The appended document is stored under its key. -/
theorem mem_docsOf_assocAppend (l : List (String × List Document))
    (k : String) (d : Document) : d ∈ docsOf (assocAppend l k d) k := by
  unfold assocAppend docsOf assocFind
  by_cases h : (l.find? (fun p => decide (p.1 = k))).isSome
  · obtain ⟨e, he⟩ := Option.isSome_iff_exists.mp h
    rw [if_pos h, find?_assocMap, he]
    have hek : e.1 = k := by simpa using List.find?_some he
    simp [hek]
  · rw [if_neg h]
    have hnone : l.find? (fun p => decide (p.1 = k)) = none :=
      Option.not_isSome_iff_eq_none.mp h
    rw [List.find?_append, hnone]
    simp [List.find?_cons]

/-- Appending a document (to any key) preserves membership of documents
already stored under a key. -/
theorem mem_docsOf_assocAppend_mono (l : List (String × List Document))
    (k k2 : String) (d d2 : Document) (h : d ∈ docsOf l k) :
    d ∈ docsOf (assocAppend l k2 d2) k := by
  unfold docsOf assocFind at h ⊢
  cases hf : l.find? (fun p => decide (p.1 = k)) with
  | none => rw [hf] at h; simp at h
  | some e =>
    rw [hf] at h
    simp only [Option.map_some', Option.getD_some] at h
    unfold assocAppend
    by_cases h2 : (l.find? (fun p => decide (p.1 = k2))).isSome
    · rw [if_pos h2, find?_assocMap, hf]
      by_cases he2 : e.1 = k2 <;> simp [he2, h]
    · rw [if_neg h2, List.find?_append, hf]
      simp [h]

/-- `add_document` never changes the base path. -/
theorem add_document_base_path (m : Manager) (f : FSFile) :
    (add_document m f).base_path = m.base_path := by
  simp only [add_document]
  split
  · rfl
  · split
    · rfl
    · split <;> rfl

/-- Folding `add_document` never changes the base path. -/
theorem foldl_add_document_base_path (l : List FSFile) :
    ∀ m : Manager, (l.foldl add_document m).base_path = m.base_path := by
  induction l with
  | nil => intro m; rfl
  | cons f rest ih =>
    intro m
    rw [List.foldl_cons, ih, add_document_base_path]

/-- `add_document` only ever appends to product-manual release buckets:
membership is preserved. -/
theorem add_document_pm_mono (m : Manager) (g : FSFile) (k : String)
    (d : Document) (h : d ∈ docsOf m.product_manual_releases k) :
    d ∈ docsOf (add_document m g).product_manual_releases k := by
  simp only [add_document]
  split
  · exact h
  · split
    · exact h
    · split
      · exact mem_docsOf_assocAppend_mono _ _ _ _ _ h
      · exact h

/-- Folding `add_document` preserves membership in product-manual
release buckets. -/
theorem foldl_add_document_pm_mono (l : List FSFile) :
    ∀ (m : Manager) (k : String) (d : Document),
      d ∈ docsOf m.product_manual_releases k →
      d ∈ docsOf ((l.foldl add_document m)).product_manual_releases k := by
  induction l with
  | nil => intro m k d h; exact h
  | cons f rest ih =>
    intro m k d h
    rw [List.foldl_cons]
    exact ih _ _ _ (add_document_pm_mono m f k d h)

/-- `zipStep` only writes `release_zips`. -/
theorem zipStep_pm (fs : FileTree) (m : Manager) (af : FSFile) :
    (zipStep fs m af).product_manual_releases =
      m.product_manual_releases := by
  simp only [zipStep]
  split <;> rfl

/-- `scan_release_zips` leaves the product-manual release map
untouched. -/
theorem scan_release_zips_pm (fs : FileTree) :
    ∀ m : Manager, (scan_release_zips fs m).product_manual_releases =
      m.product_manual_releases := by
  unfold scan_release_zips
  generalize rootArchiveFiles fs = l
  induction l with
  | nil => intro m; rfl
  | cons af rest ih =>
    intro m
    rw [List.foldl_cons, ih, zipStep_pm]

/-- Shape of `add_document` on a 2-component `ProductManual` archive:
the virtual-release branch fires unconditionally (no check for a
same-stem sibling directory). -/
theorem add_document_pm_archive (m : Manager) (f : FSFile) (name : String)
    (hp : f.parts = ["ProductManual", name])
    (harch : get_file_type (pyLower (pySuffix name)) = "archive") :
    add_document m f =
      { m with
        product_manual_releases :=
          assocAppend m.product_manual_releases (pyStem name)
            (pmArchiveDoc m.base_path f)
        all_documents := m.all_documents ++ [pmArchiveDoc m.base_path f] } := by
  have hname : fsName f = name := by
    unfold fsName
    rw [hp]
    rfl
  have hpm : is_product_manual_of ["ProductManual", name] := by
    show pyLower "ProductManual" = "productmanual"
    decide
  unfold add_document pmArchiveDoc
  simp only [hp, hname, harch]
  simp +decide [is_product_manual_of, hpm]

/-- Shape of `add_document` on a `ProductManual` file with at least
three path components. -/
theorem add_document_pm_deep (m : Manager) (f : FSFile)
    (hpm : is_product_manual_of f.parts) (h3 : 3 ≤ f.parts.length) :
    add_document m f =
      { m with
        product_manual_releases :=
          assocAppend m.product_manual_releases (f.parts.getD 1 "")
            (pmDeepDoc m.base_path f)
        all_documents := m.all_documents ++ [pmDeepDoc m.base_path f] } := by
  have hnlt2 : ¬ (f.parts.length < 2) := by omega
  have hne2 : ¬ (f.parts.length = 2) := by omega
  have hnlt3 : ¬ (f.parts.length < 3) := by omega
  unfold add_document pmDeepDoc
  simp [hpm, h3, hnlt2, hne2, hnlt3]

/-- Shape of `add_document` on a knowledge-base file. -/
theorem add_document_kb (m : Manager) (f : FSFile)
    (h2 : 2 ≤ f.parts.length) (hnpm : ¬ is_product_manual_of f.parts) :
    add_document m f =
      { m with
        knowledge_base_releases :=
          assocAppend m.knowledge_base_releases (f.parts.headD "")
            (kbDoc m.base_path f)
        all_documents := m.all_documents ++ [kbDoc m.base_path f] } := by
  have hnlt2 : ¬ (f.parts.length < 2) := by omega
  unfold add_document kbDoc
  simp [hnpm, hnlt2]

/-- C5: a file whose first component case-insensitively equals
`ProductManual` and which has at least 3 components is classified
`product_manual` with release the 2nd component and
relative-in-release the slash-join from the 3rd component on; a file
whose first component is not `ProductManual` (with at least 2
components) is classified `knowledge_base` with release the 1st
component and relative-in-release the slash-join from the 2nd
component on. -/
theorem c5_classification (m : Manager) (f : FSFile) :
    (is_product_manual_of f.parts → 3 ≤ f.parts.length →
      ClassifySpecPM m f) ∧
    (2 ≤ f.parts.length → ¬ is_product_manual_of f.parts →
      ClassifySpecKB m f) := by
  constructor
  · intro hpm h3
    unfold ClassifySpecPM
    rw [add_document_pm_deep m f hpm h3]
    refine ⟨rfl, rfl, rfl, rfl, ?_⟩
    exact mem_docsOf_assocAppend _ _ _
  · intro h2 hnpm
    unfold ClassifySpecKB
    rw [add_document_kb m f h2 hnpm]
    refine ⟨rfl, rfl, rfl, rfl, ?_⟩
    exact mem_docsOf_assocAppend _ _ _

/-- Witness for C5 on `ProductManual/R1/sub/doc.pdf` and
`KB1/notes.mhtml`. -/
theorem c5_classification_witness :
    is_product_manual_of (["ProductManual", "R1", "sub", "doc.pdf"]) ∧
    3 ≤ (["ProductManual", "R1", "sub", "doc.pdf"] : List String).length ∧
    ClassifySpecPM sampleManager
      ⟨["ProductManual", "R1", "sub", "doc.pdf"], 10, "t"⟩ ∧
    2 ≤ (["KB1", "notes.mhtml"] : List String).length ∧
    ¬ is_product_manual_of ["KB1", "notes.mhtml"] ∧
    ClassifySpecKB sampleManager ⟨["KB1", "notes.mhtml"], 30, "t"⟩ :=
  ⟨by decide, by decide,
    (c5_classification sampleManager
      ⟨["ProductManual", "R1", "sub", "doc.pdf"], 10, "t"⟩).1
      (by decide) (by decide),
    by decide, by decide,
    (c5_classification sampleManager
      ⟨["KB1", "notes.mhtml"], 30, "t"⟩).2 (by decide) (by decide)⟩

/-- C6: a file at exactly `ProductManual/<stem>.<archive extension>`
with no sibling directory `ProductManual/<stem>/` is classified as a
standalone product-manual release represented by one archive document:
release the file stem, relative-in-release the full file name. -/
theorem c6_pm_archive_release (fs : FileTree) (m : Manager) (f : FSFile)
    (name : String)
    (hp : f.parts = ["ProductManual", name])
    (harch : get_file_type (pyLower (pySuffix name)) = "archive")
    (_hnodir : ¬ ["ProductManual", pyStem name] ∈ fs.dirs) :
    (add_document m f).all_documents =
        m.all_documents ++ [pmArchiveDoc m.base_path f] ∧
      (pmArchiveDoc m.base_path f).category = "product_manual" ∧
      (pmArchiveDoc m.base_path f).release = pyStem name ∧
      (pmArchiveDoc m.base_path f).relative_in_release = name ∧
      (pmArchiveDoc m.base_path f).type = "archive" ∧
      pmArchiveDoc m.base_path f ∈
        docsOf (add_document m f).product_manual_releases (pyStem name) := by
  have hname : fsName f = name := by
    unfold fsName
    rw [hp]
    rfl
  rw [add_document_pm_archive m f name hp harch]
  refine ⟨rfl, rfl, ?_, ?_, ?_, ?_⟩
  · show pyStem (fsName f) = pyStem name
    rw [hname]
  · show f.parts.getD 1 "" = name
    rw [hp]
    rfl
  · show get_file_type (pyLower (pySuffix (fsName f))) = "archive"
    rw [hname, harch]
  · exact mem_docsOf_assocAppend _ _ _

/-- Witness for C6 on `ProductManual/Bundle.zip` with no
`ProductManual/Bundle/` directory. -/
theorem c6_pm_archive_release_witness :
    (⟨["ProductManual", "Bundle.zip"], 20, "t"⟩ : FSFile).parts =
        ["ProductManual", "Bundle.zip"] ∧
    get_file_type (pyLower (pySuffix "Bundle.zip")) = "archive" ∧
    ¬ ["ProductManual", pyStem "Bundle.zip"] ∈ soloZipTree.dirs ∧
    ((add_document sampleManager
        ⟨["ProductManual", "Bundle.zip"], 20, "t"⟩).all_documents =
        sampleManager.all_documents ++
          [pmArchiveDoc sampleManager.base_path
            ⟨["ProductManual", "Bundle.zip"], 20, "t"⟩] ∧
      (pmArchiveDoc sampleManager.base_path
        ⟨["ProductManual", "Bundle.zip"], 20, "t"⟩).category =
        "product_manual" ∧
      (pmArchiveDoc sampleManager.base_path
        ⟨["ProductManual", "Bundle.zip"], 20, "t"⟩).release =
        pyStem "Bundle.zip" ∧
      (pmArchiveDoc sampleManager.base_path
        ⟨["ProductManual", "Bundle.zip"], 20, "t"⟩).relative_in_release =
        "Bundle.zip" ∧
      (pmArchiveDoc sampleManager.base_path
        ⟨["ProductManual", "Bundle.zip"], 20, "t"⟩).type = "archive" ∧
      pmArchiveDoc sampleManager.base_path
          ⟨["ProductManual", "Bundle.zip"], 20, "t"⟩ ∈
        docsOf (add_document sampleManager
            ⟨["ProductManual", "Bundle.zip"], 20, "t"⟩).product_manual_releases
          (pyStem "Bundle.zip")) :=
  ⟨rfl, by decide, by decide,
    c6_pm_archive_release soloZipTree sampleManager
      ⟨["ProductManual", "Bundle.zip"], 20, "t"⟩ "Bundle.zip" rfl
      (by decide) (by decide)⟩

/-- C2 (counterexample): in `bundleTree`, where `ProductManual/Bundle/`
exists with an indexed file inside, the coexisting
`ProductManual/Bundle.zip` nevertheless appears in
`get_release_documents` for `(product_manual, Bundle)`. -/
theorem c2_zip_in_list_documents_cex :
    ((get_release_documents (PDFDocumentManager bundleTree) "Bundle"
        "product_manual").filter
      (fun d => decide (d.name = "Bundle.zip"))).length = 1 := by decide

/-- C2 (amended): any scanned file at `ProductManual/<name>` whose
extension matches an archive pattern of the scan is listed by
`get_release_documents` for `(product_manual, stem)` as an archive
document, whether or not a same-stem directory exists — the
directory-existence gate of `scan_release_zips` applies only to
root-level archive siblings, which never enter the document lists. -/
theorem c2_pm_archive_listed (fs : FileTree) (f : FSFile) (name : String)
    (hf : f ∈ fs.files) (hp : f.parts = ["ProductManual", name])
    (hext : ∃ e ∈ supportedExtOrder, strEndsWith name e = true)
    (harch : get_file_type (pyLower (pySuffix name)) = "archive") :
    ∃ d ∈ get_release_documents (PDFDocumentManager fs) (pyStem name)
        "product_manual",
      d.name = name ∧ d.type = "archive" ∧
        d.relative_in_release = name := by
  have hname : fsName f = name := by
    unfold fsName
    rw [hp]
    rfl
  obtain ⟨e, he, hee⟩ := hext
  have hmemAll : f ∈ allFiles fs := by
    unfold allFiles
    exact List.mem_flatMap.mpr
      ⟨e, he, List.mem_filter.mpr ⟨hf, by rw [hname]; exact hee⟩⟩
  obtain ⟨pre, post, hsplit⟩ := List.append_of_mem hmemAll
  set m0 : Manager :=
    { base_path := fs.base
      product_manual_releases := []
      knowledge_base_releases := []
      release_zips := []
      all_documents := [] } with hm0
  have hdoc : pmArchiveDoc (List.foldl add_document m0 pre).base_path f ∈
      docsOf (PDFDocumentManager fs).product_manual_releases
        (pyStem name) := by
    unfold PDFDocumentManager scan_documents
    rw [scan_release_zips_pm]
    rw [hsplit, List.foldl_append, List.foldl_cons]
    apply foldl_add_document_pm_mono
    rw [add_document_pm_archive (List.foldl add_document m0 pre) f name hp
      harch]
    exact mem_docsOf_assocAppend _ _ _
  set M := PDFDocumentManager fs with hM
  set d := pmArchiveDoc (List.foldl add_document m0 pre).base_path f with hd
  cases hfind : assocFind M.product_manual_releases (pyStem name) with
  | none =>
    rw [docsOf, hfind] at hdoc
    simp at hdoc
  | some docs =>
    rw [docsOf, hfind] at hdoc
    simp only [Option.getD_some] at hdoc
    refine ⟨d, ?_, ?_, ?_, ?_⟩
    · unfold get_release_documents
      rw [if_pos rfl, hfind]
      exact (List.mem_insertionSort relLe).mpr hdoc
    · show (pmArchiveDoc _ f).name = name
      unfold pmArchiveDoc
      exact hname
    · show (pmArchiveDoc _ f).type = "archive"
      unfold pmArchiveDoc
      rw [hname, harch]
    · show (pmArchiveDoc _ f).relative_in_release = name
      unfold pmArchiveDoc
      rw [hp]
      rfl

/-- Amended-claim label for C2: the zip at `ProductManual/Bundle.zip`
does appear in the listing even though `ProductManual/Bundle/` exists
with files inside. -/
theorem c2_pm_archive_listed_witness :
    (⟨["ProductManual", "Bundle.zip"], 20, "t"⟩ : FSFile) ∈
        bundleTree.files ∧
    (∃ e ∈ supportedExtOrder, strEndsWith "Bundle.zip" e = true) ∧
    get_file_type (pyLower (pySuffix "Bundle.zip")) = "archive" ∧
    (∃ d ∈ get_release_documents (PDFDocumentManager bundleTree)
        (pyStem "Bundle.zip") "product_manual",
      d.name = "Bundle.zip" ∧ d.type = "archive" ∧
        d.relative_in_release = "Bundle.zip") :=
  ⟨by decide, ⟨".zip", by decide, by decide⟩, by decide,
    c2_pm_archive_listed bundleTree
      ⟨["ProductManual", "Bundle.zip"], 20, "t"⟩ "Bundle.zip" (by decide)
      rfl ⟨".zip", by decide, by decide⟩ (by decide)⟩

/-- C3 (counterexample): in `soloZipTree` the root archive `Bundle.zip`
is registered as an archive sibling (one entry, 20 bytes), yet
`get_stats` filtered to `product_manual` reports zero archive siblings
and zero size, because its stem is not a product-manual release key. -/
theorem c3_stats_zip_filter_cex :
    (get_stats (PDFDocumentManager soloZipTree)
        (some "product_manual")).release_zips_count = 0 ∧
    (get_stats (PDFDocumentManager soloZipTree)
        (some "product_manual")).release_zips_total_size = 0 ∧
    (PDFDocumentManager soloZipTree).release_zips.length = 1 ∧
    ((PDFDocumentManager soloZipTree).release_zips.map
      (fun kv => kv.2.size)).sum = 20 := by decide

/-- A `find?` on a key predicate succeeds exactly when the key occurs
among the mapped first components. -/
theorem findKey_isSome_eq (l : List (String × α)) (k : String) :
    (l.find? (fun p => decide (p.1 = k))).isSome =
      decide (k ∈ l.map (fun p => p.1)) := by
  induction l with
  | nil => rfl
  | cons p rest ih =>
    by_cases h : p.1 = k
    · rw [List.find?_cons_of_pos _ (by simpa using h)]
      simp [h]
    · rw [List.find?_cons_of_neg _ (by simpa using h)]
      rw [ih]
      have e : (k ∈ (p :: rest).map (fun p => p.1)) ↔
          (k ∈ rest.map (fun p => p.1)) := by
        simp only [List.map_cons, List.mem_cons]
        constructor
        · rintro (rfl | hk)
          · exact absurd rfl h
          · exact hk
        · exact Or.inr
      exact (decide_eq_decide.mpr e).symm

/-- C3 (amended): `get_stats` filtered to `product_manual` counts and
sizes only the archive siblings whose stem is a key of the
product-manual release map, not all registered archive siblings. -/
theorem c3_stats_zip_key_filter (m : Manager) :
    (get_stats m (some "product_manual")).release_zips_count =
      (m.release_zips.filter (fun kv =>
        decide (kv.1 ∈ m.product_manual_releases.map
          (fun p => p.1)))).length ∧
    (get_stats m (some "product_manual")).release_zips_total_size =
      ((m.release_zips.filter (fun kv =>
        decide (kv.1 ∈ m.product_manual_releases.map
          (fun p => p.1)))).map (fun kv => kv.2.size)).sum := by
  have hfil : m.release_zips.filter (fun kv =>
      (m.product_manual_releases.find?
        (fun p => decide (p.1 = kv.1))).isSome) =
      m.release_zips.filter (fun kv =>
        decide (kv.1 ∈ m.product_manual_releases.map (fun p => p.1))) := by
    apply List.filter_congr
    intro kv _
    exact findKey_isSome_eq m.product_manual_releases kv.1
  constructor
  · show (m.release_zips.filter (fun kv =>
        (m.product_manual_releases.find?
          (fun p => decide (p.1 = kv.1))).isSome)).length = _
    rw [hfil]
  · show ((m.release_zips.filter (fun kv =>
        (m.product_manual_releases.find?
          (fun p => decide (p.1 = kv.1))).isSome)).map
          (fun kv => kv.2.size)).sum = _
    rw [hfil]
